import Mathlib

/-
Shallow embedding of genometreetk/ncbi.py.

Modelling conventions:
* A Python string is modelled as a list of characters (Str).
* A text file opened for line iteration is modelled as the list of lines the
  iteration yields: each element carries its trailing line terminator, exactly
  as Python yields it.
* A CSV file read through csv.reader is modelled as the list of its records
  (the CSV-level parsing of quotes and commas is outside the claims).
* A Python dict is modelled as an association list with in-place update
  semantics (dictInsert); a Python set is modelled as a duplicate-free list
  built by setAdd, and facts about sets are stated via list membership.
* A value that is either a string or the integer sentinel -1 is modelled by
  PyVal, mirroring the dynamic typing of accession_to_taxid.get(gid, -1).
* A Python exception aborting the call is modelled by Except PyErr: a list
  index out of range is PyErr.indexError, a failed list.index lookup is
  PyErr.valueError.
-/

abbrev Str := List Char

abbrev Row := List Str

abbrev Dict := List (Str × Str)

/-- Dynamically typed Python value: a string or an integer. -/
inductive PyVal where
  | str : Str → PyVal
  | int : Int → PyVal
deriving DecidableEq

/-- Python exception kinds relevant to this module. -/
inductive PyErr where
  | indexError : PyErr
  | valueError : PyErr
deriving DecidableEq

/-- Whitespace characters stripped by str.rstrip() (ASCII part). -/
def pyWhitespace (c : Char) : Bool :=
  c == ' ' || c == '\t' || c == '\n' || c == '\r' || c == '\x0b' || c == '\x0c'

/-- Python str.rstrip(): remove trailing whitespace. -/
def pyRstrip (s : Str) : Str :=
  (s.reverse.dropWhile pyWhitespace).reverse

/-- Python str.split(sep) for a single separator character: always returns at
least one field; an empty string yields one empty field. -/
def pySplit (sep : Char) : Str → List Str
  | [] => [[]]
  | c :: rest =>
    let r := pySplit sep rest
    if c = sep then [] :: r else (c :: r.headD []) :: r.tail

/-- Python str.lower() (ASCII part). -/
def pyLower (s : Str) : Str :=
  s.map Char.toLower

/-- Worker for pyReplace, structurally recursive on a fuel argument so that it
computes inside the kernel; each step consumes at least one character, so a
fuel of the length of the string never runs out. -/
def pyReplaceAux (pat rep : Str) : Nat → Str → Str
  | _, [] => []
  | 0, s => s
  | fuel + 1, c :: rest =>
    if pat ≠ [] ∧ pat.isPrefixOf (c :: rest) then
      rep ++ pyReplaceAux pat rep fuel (List.drop (pat.length - 1) rest)
    else
      c :: pyReplaceAux pat rep fuel rest

/-- Python str.replace(pat, rep): replace non-overlapping occurrences of pat
left to right, resuming the scan after each replacement (the output of a
replacement is not rescanned). -/
def pyReplace (pat rep : Str) (s : Str) : Str :=
  pyReplaceAux pat rep s.length s

/-- Python substring test: pat in s. -/
def pyContains (pat : Str) : Str → Bool
  | [] => pat.isEmpty
  | c :: rest => pat.isPrefixOf (c :: rest) || pyContains pat rest

/-- Python list.index restricted to what the code needs: index of the first
occurrence of x, or none (which the caller turns into a ValueError). -/
def pyIndex? (x : Str) : List Str → Option Nat
  | [] => none
  | c :: rest => if c = x then some 0 else (pyIndex? x rest).map (· + 1)

/-- Python dict assignment d[k] = v: update the existing binding in place, or
append a new binding at the end. -/
def dictInsert : Dict → Str → Str → Dict
  | [], k, v => [(k, v)]
  | (k1, v1) :: rest, k, v =>
    if k1 = k then (k, v) :: rest else (k1, v1) :: dictInsert rest k v

/-- Python dict lookup d.get(k): the value bound to k, if any. -/
def dictGet? : Dict → Str → Option Str
  | [], _ => none
  | (k1, v1) :: rest, k => if k = k1 then some v1 else dictGet? rest k

/-- Python d.get(k, default): the value bound to k as a PyVal string, or the
supplied default PyVal. -/
def dictGetD (d : Dict) (k : Str) (dflt : PyVal) : PyVal :=
  match dictGet? d k with
  | some v => PyVal.str v
  | none => dflt

/-- Keys of a dict, in insertion order. -/
def dictKeys (d : Dict) : List Str :=
  d.map Prod.fst

/-- Python set.add: append the element unless already present. -/
def setAdd {α : Type} [DecidableEq α] (s : List α) (x : α) : List α :=
  if x ∈ s then s else s ++ [x]

/-- Fold a fallible step over a list, stopping at the first error, as a Python
for-loop whose body may raise does. -/
def foldE {α β ε : Type} (f : β → α → Except ε β) : β → List α → Except ε β
  | b, [] => .ok b
  | b, a :: l =>
    match f b a with
    | .error e => .error e
    | .ok b2 => foldE f b2 l

/-- One line of read_genome_dir: rstrip, split on tab, take fields 0 and 1;
a line with fewer than two fields raises IndexError. -/
def rgdStep (d : Dict) (line : Str) : Except PyErr Dict :=
  match pySplit '\t' (pyRstrip line) with
  | a :: b :: _ => .ok (dictInsert d a b)
  | _ => .error .indexError

/-- read_genome_dir from ncbi.py: build genome_dirs from the lines of the
genome dir file. -/
def read_genome_dir (lines : List Str) : Except PyErr Dict :=
  foldE rgdStep [] lines

/-- Fields of a genome-dir line after stripping trailing whitespace. -/
def fields (line : Str) : List Str :=
  pySplit '\t' (pyRstrip line)

/-- Genome id of a genome-dir line (first tab-separated field). -/
def f0 (line : Str) : Str :=
  (fields line).headD []

/-- Directory path of a genome-dir line (second tab-separated field). -/
def f1 (line : Str) : Str :=
  (fields line).getD 1 []

/-- Directory path of the last line (in file order) whose genome id is k. -/
def lastDir (lines : List Str) (k : Str) : Option Str :=
  (lines.reverse.find? (fun l => f0 l == k)).map f1

/-- Dict obtained by inserting (genome id, directory path) of every line in
order; read_genome_dir returns exactly this when no line is malformed. -/
def insFold (lines : List Str) : Dict :=
  lines.foldl (fun d l => dictInsert d (f0 l) (f1 l)) []

/-- A line is non-empty when stripping trailing whitespace leaves content. -/
def nonEmptyLine (line : Str) : Bool :=
  !(pyRstrip line).isEmpty

/-- Accession normalization of read_refseq_metadata: remove RS_ and then GB_
occurrences, as accession.replace('RS_', '').replace('GB_', '') does. -/
def stripDbPre (a : Str) : Str :=
  pyReplace ("GB_".toList) [] (pyReplace ("RS_".toList) [] a)

/-- Result triple of read_refseq_metadata. -/
structure RefseqMetadata where
  accession_to_taxid : Dict
  complete_genomes : List Str
  representative_genomes : List Str
deriving DecidableEq

/-- Empty result triple. -/
def emptyMeta : RefseqMetadata :=
  ⟨[], [], []⟩

/-- Body of the data-row branch of read_refseq_metadata: keep only rows whose
genome value starts with RS_, optionally strip database prefixes, record the
taxid, and classify into the complete and representative sets. -/
def processRow ( keep_db_prefix : Bool) (gi ti ai ri : Nat) (st : RefseqMetadata) (row : Row) :
    Except PyErr RefseqMetadata :=
  match row.get? gi with
  | none => .error .indexError
  | some assembly_accession =>
    if ("RS_".toList).isPrefixOf assembly_accession then
      let acc := if keep_db_prefix then assembly_accession else stripDbPre assembly_accession
      match row.get? ti with
      | none => .error .indexError
      | some taxid =>
        match row.get? ai with
        | none => .error .indexError
        | some lvl =>
          match row.get? ri with
          | none => .error .indexError
          | some cat =>
            .ok ⟨dictInsert st.accession_to_taxid acc taxid,
                 if pyLower lvl = "complete genome".toList then
                   setAdd st.complete_genomes acc
                 else st.complete_genomes,
                 if pyContains ("reference".toList) (pyLower cat) ||
                    pyContains ("representative".toList) (pyLower cat) then
                   setAdd st.representative_genomes acc
                 else st.representative_genomes⟩
    else
      .ok st

/-- read_refseq_metadata from ncbi.py: resolve the four named columns from the
header record, then process every data record; a missing column is a
ValueError, raised while handling the header, before any data row. -/
def read_refseq_metadata (rows : List Row) ( keep_db_prefix : Bool) :
    Except PyErr RefseqMetadata :=
  match rows with
  | [] => .ok emptyMeta
  | header :: dataRows =>
    match pyIndex? ("genome".toList) header,
          pyIndex? ("ncbi_taxid".toList) header,
          pyIndex? ("ncbi_assembly_level".toList) header,
          pyIndex? ("ncbi_refseq_category".toList) header with
    | some gi, some ti, some ai, some ri =>
      foldE (processRow keep_db_prefix gi ti ai ri) emptyMeta dataRows
    | _, _, _, _ => .error .valueError

/-- read_type_strains from ncbi.py: the set of first tab-delimited fields of
the lines of the type strain file; lines are not stripped before splitting. -/
def read_type_strains (lines : List Str) : List PyVal :=
  lines.foldl (fun s l => setAdd s (PyVal.str ((pySplit '\t' l).headD []))) []

/-- Test that every element of a set of taxonomy identifiers is a string, as
holds for the sets produced by read_type_strains. -/
def allStr (ts : List PyVal) : Bool :=
  ts.all fun v =>
    match v with
    | PyVal.str _ => true
    | PyVal.int _ => false

/-- get_type_strains from ncbi.py: genomes whose taxid, looked up with the
sentinel default -1, belongs to type_strain_taxids. -/
def get_type_strains (genome_ids : List Str) (accession_to_taxid : Dict)
    (type_strain_taxids : List PyVal) : List Str :=
  genome_ids.foldl
    (fun ts g =>
      if dictGetD accession_to_taxid g (PyVal.int (-1)) ∈ type_strain_taxids then
        setAdd ts g
      else ts)
    []

/- Basic lemmas about the Python-container embedding. -/

theorem mem_setAdd {α : Type} [DecidableEq α] {s : List α} {x y : α} :
    y ∈ setAdd s x ↔ y ∈ s ∨ y = x := by
  unfold setAdd
  split
  case isTrue h =>
    constructor
    · exact Or.inl
    · rintro (hy | rfl)
      · exact hy
      · exact h
  case isFalse h =>
    simp [List.mem_append]

theorem nodup_setAdd {α : Type} [DecidableEq α] {s : List α} {x : α} (h : s.Nodup) :
    (setAdd s x).Nodup := by
  unfold setAdd
  split
  · exact h
  case isFalse hx =>
    simp [List.nodup_append, h, hx]

theorem dictGet?_dictInsert (d : Dict) (k v k2 : Str) :
    dictGet? (dictInsert d k v) k2 = if k2 = k then some v else dictGet? d k2 := by
  induction d with
  | nil => simp [dictInsert, dictGet?]
  | cons p rest ih =>
    obtain ⟨k1, v1⟩ := p
    by_cases h1 : k1 = k
    · subst h1
      simp only [dictInsert, if_pos rfl, dictGet?]
      by_cases h2 : k2 = k1 <;> simp [h2]
    · simp only [dictInsert, if_neg h1, dictGet?, ih]
      by_cases h2 : k2 = k1
      · simp [h2, h1]
      · simp [h2]

theorem dictKeys_dictInsert (d : Dict) (k v : Str) :
    dictKeys (dictInsert d k v) =
      if k ∈ dictKeys d then dictKeys d else dictKeys d ++ [k] := by
  induction d with
  | nil => simp [dictInsert, dictKeys]
  | cons p rest ih =>
    obtain ⟨k1, v1⟩ := p
    by_cases h1 : k1 = k
    · subst h1
      simp [dictInsert, dictKeys]
    · have hkk1 : ¬k = k1 := fun h => h1 h.symm
      simp only [dictInsert, if_neg h1, dictKeys, List.map_cons] at ih ⊢
      by_cases hk : k ∈ List.map Prod.fst rest
      · simp [hk, ih, hkk1]
      · simp [hk, ih, hkk1]

theorem mem_dictKeys_dictInsert {d : Dict} {k v a : Str} :
    a ∈ dictKeys (dictInsert d k v) ↔ a ∈ dictKeys d ∨ a = k := by
  rw [dictKeys_dictInsert]
  split
  case isTrue h =>
    constructor
    · exact Or.inl
    · rintro (ha | rfl)
      · exact ha
      · exact h
  case isFalse h =>
    simp [List.mem_append]

theorem length_dictInsert (d : Dict) (k v : Str) :
    (dictInsert d k v).length =
      if k ∈ dictKeys d then d.length else d.length + 1 := by
  induction d with
  | nil => simp [dictInsert, dictKeys]
  | cons p rest ih =>
    obtain ⟨k1, v1⟩ := p
    by_cases h1 : k1 = k
    · subst h1
      simp [dictInsert, dictKeys]
    · have hkk1 : ¬k = k1 := fun h => h1 h.symm
      simp only [dictInsert, if_neg h1, dictKeys, List.map_cons, List.length_cons] at ih ⊢
      by_cases hk : k ∈ List.map Prod.fst rest
      · simp [hk, ih, hkk1]
      · simp [hk, ih, hkk1]

theorem foldE_append {α β ε : Type} (f : β → α → Except ε β) (b : β) (l1 l2 : List α) :
    foldE f b (l1 ++ l2) =
      match foldE f b l1 with
      | .error e => .error e
      | .ok b2 => foldE f b2 l2 := by
  induction l1 generalizing b with
  | nil => simp [foldE]
  | cons a l1 ih =>
    simp only [List.cons_append, foldE]
    cases f b a with
    | error e => rfl
    | ok b2 => exact ih b2

theorem pySplit_ne_nil (sep : Char) (s : Str) : pySplit sep s ≠ [] := by
  cases s with
  | nil => simp [pySplit]
  | cons c rest =>
    simp only [pySplit]
    split <;> simp

theorem pySplit_no_sep {sep : Char} {s : Str} (h : sep ∉ s) : pySplit sep s = [s] := by
  induction s with
  | nil => rfl
  | cons c rest ih =>
    simp only [List.mem_cons, not_or] at h
    have hcs : ¬c = sep := fun hc => h.1 hc.symm
    simp [pySplit, ih h.2, hcs]

/- Lemmas about read_genome_dir. -/

theorem rgdStep_eq (d : Dict) (line : Str) :
    rgdStep d line =
      match fields line with
      | a :: b :: _ => .ok (dictInsert d a b)
      | _ => .error .indexError := rfl

theorem fields_of_two {line : Str} (h : 2 ≤ (fields line).length) :
    fields line = f0 line :: f1 line :: (fields line).drop 2 := by
  cases hf : fields line with
  | nil => rw [hf] at h; simp at h
  | cons a tl =>
    cases tl with
    | nil => rw [hf] at h; simp at h
    | cons b t =>
      simp [f0, f1, fields] at hf ⊢
      simp [hf]

theorem rgdStep_ok {line : Str} (d : Dict) (h : 2 ≤ (fields line).length) :
    rgdStep d line = .ok (dictInsert d (f0 line) (f1 line)) := by
  rw [rgdStep_eq, fields_of_two h]

theorem rgdStep_short {line : Str} (d : Dict) (h : (fields line).length < 2) :
    rgdStep d line = .error .indexError := by
  rw [rgdStep_eq]
  cases hf : fields line with
  | nil => rfl
  | cons a tl =>
    cases tl with
    | nil => rfl
    | cons b t =>
      rw [hf] at h
      simp only [List.length_cons] at h
      omega

theorem rgdStep_error {line : Str} {d : Dict} {e : PyErr} (h : rgdStep d line = .error e) :
    e = .indexError := by
  rw [rgdStep_eq] at h
  cases hf : fields line with
  | nil => rw [hf] at h; cases h; rfl
  | cons a tl =>
    cases tl with
    | nil => rw [hf] at h; cases h; rfl
    | cons b t => rw [hf] at h; cases h

theorem foldE_rgd_short : ∀ (lines : List Str) (d : Dict),
    (∃ l ∈ lines, (fields l).length < 2) →
    foldE rgdStep d lines = .error .indexError := by
  intro lines
  induction lines with
  | nil => rintro d ⟨l, hl, _⟩; simp at hl
  | cons a rest ih =>
    rintro d ⟨l, hl, hshort⟩
    rcases List.mem_cons.mp hl with rfl | hl2
    · simp [foldE, rgdStep_short d hshort]
    · cases hstep : rgdStep d a with
      | error e =>
        simp [foldE, hstep, rgdStep_error hstep]
      | ok d2 =>
        simp only [foldE, hstep]
        exact ih d2 ⟨l, hl2, hshort⟩

theorem foldE_rgd_ok : ∀ (lines : List Str) (d : Dict),
    (∀ l ∈ lines, 2 ≤ (fields l).length) →
    foldE rgdStep d lines =
      .ok (lines.foldl (fun d2 l => dictInsert d2 (f0 l) (f1 l)) d) := by
  intro lines
  induction lines with
  | nil => intro d _; rfl
  | cons a rest ih =>
    intro d hwf
    have ha := hwf a (List.mem_cons_self a rest)
    simp only [foldE, rgdStep_ok d ha, List.foldl_cons]
    exact ih _ (fun l hl => hwf l (List.mem_cons_of_mem a hl))

theorem lastDir_cons (l : Str) (rest : List Str) (k : Str) :
    lastDir (l :: rest) k =
      match lastDir rest k with
      | some v => some v
      | none => if f0 l == k then some (f1 l) else none := by
  simp only [lastDir, List.reverse_cons, List.find?_append]
  cases List.find? (fun m => f0 m == k) rest.reverse with
  | none =>
    simp only [Option.or, List.find?]
    cases hb : (f0 l == k) <;> simp
  | some m => simp [Option.or]

theorem foldE_rgd_get : ∀ (lines : List Str) (d d2 : Dict),
    foldE rgdStep d lines = .ok d2 →
    ∀ k, dictGet? d2 k =
      match lastDir lines k with
      | some v => some v
      | none => dictGet? d k := by
  intro lines
  induction lines with
  | nil =>
    intro d d2 h k
    cases h
    simp [lastDir]
  | cons a rest ih =>
    intro d d2 h k
    cases hstep : rgdStep d a with
    | error e => simp [foldE, hstep] at h
    | ok d1 =>
      simp only [foldE, hstep] at h
      have hget := ih d1 d2 h k
      have ha : 2 ≤ (fields a).length := by
        by_contra hn
        rw [rgdStep_short d (by omega)] at hstep
        cases hstep
      rw [rgdStep_ok d ha] at hstep
      cases hstep
      rw [lastDir_cons, hget, dictGet?_dictInsert]
      cases hLd : lastDir rest k with
      | some v => simp
      | none =>
        cases hb : (f0 a == k) with
        | true =>
          have : k = f0 a := (eq_of_beq hb).symm
          simp [this]
        | false =>
          have : ¬k = f0 a := fun hk => by simp [hk] at hb
          simp [this]

theorem lastDir_self {lines : List Str} {l : Str}
    (hnd : (lines.map f0).Nodup) (hl : l ∈ lines) :
    lastDir lines (f0 l) = some (f1 l) := by
  unfold lastDir
  cases hfind : List.find? (fun m => f0 m == f0 l) lines.reverse with
  | none =>
    exfalso
    have := List.find?_eq_none.mp hfind l (List.mem_reverse.mpr hl)
    simp at this
  | some m =>
    have hpm : f0 m = f0 l := by
      have := List.find?_some hfind
      exact eq_of_beq this
    have hm : m ∈ lines := List.mem_reverse.mp (List.mem_of_find?_eq_some hfind)
    have : m = l := List.inj_on_of_nodup_map hnd hm hl hpm
    subst this
    rfl

theorem foldl_dictInsert_length : ∀ (lines : List Str) (d : Dict),
    (dictKeys d ++ lines.map f0).Nodup →
    (lines.foldl (fun d2 l => dictInsert d2 (f0 l) (f1 l)) d).length =
      d.length + lines.length := by
  intro lines
  induction lines with
  | nil => intro d _; simp
  | cons a rest ih =>
    intro d hnd
    have hmem : f0 a ∉ dictKeys d := by
      rw [List.nodup_append] at hnd
      intro hin
      exact hnd.2.2 hin (by simp)
    have hkeys : dictKeys (dictInsert d (f0 a) (f1 a)) = dictKeys d ++ [f0 a] := by
      rw [dictKeys_dictInsert, if_neg hmem]
    have hlen : (dictInsert d (f0 a) (f1 a)).length = d.length + 1 := by
      rw [length_dictInsert, if_neg hmem]
    have hnd2 : (dictKeys (dictInsert d (f0 a) (f1 a)) ++ rest.map f0).Nodup := by
      rw [hkeys, ← List.append_cons]
      simpa using hnd
    simp only [List.foldl_cons]
    rw [ih _ hnd2, hlen, List.length_cons]
    omega

/- Lemmas about read_refseq_metadata. -/

theorem pyIndex?_eq_none {x : Str} : ∀ {row : List Str}, x ∉ row → pyIndex? x row = none := by
  intro row
  induction row with
  | nil => intro _; rfl
  | cons c rest ih =>
    intro h
    simp only [List.mem_cons, not_or] at h
    have hcx : ¬c = x := fun hc => h.1 hc.symm
    simp [pyIndex?, hcx, ih h.2]

theorem rrm_header_resolved {header : Row} {gi ti ai ri : Nat} (dataRows : List Row)
    ( keep_db_prefix : Bool)
    (h1 : pyIndex? ("genome".toList) header = some gi)
    (h2 : pyIndex? ("ncbi_taxid".toList) header = some ti)
    (h3 : pyIndex? ("ncbi_assembly_level".toList) header = some ai)
    (h4 : pyIndex? ("ncbi_refseq_category".toList) header = some ri) :
    read_refseq_metadata (header :: dataRows) keep_db_prefix =
      foldE (processRow keep_db_prefix gi ti ai ri) emptyMeta dataRows := by
  simp only [read_refseq_metadata, h1, h2, h3, h4]

theorem processRow_nonRS {r : Row} {gi : Nat} {a : Str}
    ( keep_db_prefix : Bool) (ti ai ri : Nat) (st : RefseqMetadata)
    (hga : r.get? gi = some a)
    (hrs : ("RS_".toList).isPrefixOf a = false) :
    processRow keep_db_prefix gi ti ai ri st r = .ok st := by
  unfold processRow
  simp only [hga, hrs, Bool.false_eq_true, if_false]

theorem processRow_ok_cases {r : Row} {gi ti ai ri : Nat}
    { keep_db_prefix : Bool} {st st2 : RefseqMetadata}
    (h : processRow keep_db_prefix gi ti ai ri st r = .ok st2) :
    (∃ a, r.get? gi = some a ∧ ("RS_".toList).isPrefixOf a = false ∧ st2 = st) ∨
    ∃ a taxid lvl cat, r.get? gi = some a ∧ ("RS_".toList).isPrefixOf a = true ∧
      r.get? ti = some taxid ∧ r.get? ai = some lvl ∧ r.get? ri = some cat ∧
      st2 = ⟨dictInsert st.accession_to_taxid
               (if keep_db_prefix then a else stripDbPre a) taxid,
             if pyLower lvl = "complete genome".toList then
               setAdd st.complete_genomes
                 (if keep_db_prefix then a else stripDbPre a)
             else st.complete_genomes,
             if pyContains ("reference".toList) (pyLower cat) ||
                pyContains ("representative".toList) (pyLower cat) then
               setAdd st.representative_genomes
                 (if keep_db_prefix then a else stripDbPre a)
             else st.representative_genomes⟩ := by
  unfold processRow at h
  cases hga : r.get? gi with
  | none => rw [hga] at h; cases h
  | some a =>
    rw [hga] at h
    simp only at h
    cases hrs : ("RS_".toList).isPrefixOf a with
    | false =>
      rw [hrs] at h
      simp only [Bool.false_eq_true, if_false] at h
      cases h
      exact Or.inl ⟨a, rfl, hrs, rfl⟩
    | true =>
      rw [hrs] at h
      simp only [if_true] at h
      cases hti : r.get? ti with
      | none => rw [hti] at h; cases h
      | some taxid =>
        rw [hti] at h
        cases hai : r.get? ai with
        | none => rw [hai] at h; cases h
        | some lvl =>
          rw [hai] at h
          cases hri : r.get? ri with
          | none => rw [hri] at h; cases h
          | some cat =>
            rw [hri] at h
            simp only at h
            cases h
            exact Or.inr ⟨a, taxid, lvl, cat, rfl, hrs, rfl, rfl, rfl, rfl⟩

theorem foldE_inv {α β ε : Type} {f : β → α → Except ε β} {P : β → Prop}
    (hstep : ∀ b a b2, P b → f b a = .ok b2 → P b2) :
    ∀ (l : List α) (b b2 : β), P b → foldE f b l = .ok b2 → P b2 := by
  intro l
  induction l with
  | nil =>
    intro b b2 hP h
    cases h
    exact hP
  | cons a rest ih =>
    intro b b2 hP h
    cases hstep2 : f b a with
    | error e => simp [foldE, hstep2] at h
    | ok b1 =>
      simp only [foldE, hstep2] at h
      exact ih b1 b2 (hstep b a b1 hP hstep2) h

theorem processRow_keys_mono {r : Row} {gi ti ai ri : Nat}
    { keep_db_prefix : Bool} {st st2 : RefseqMetadata} {a : Str}
    (h : processRow keep_db_prefix gi ti ai ri st r = .ok st2)
    (ha : a ∈ dictKeys st.accession_to_taxid) :
    a ∈ dictKeys st2.accession_to_taxid := by
  rcases processRow_ok_cases h with ⟨a2, _, _, rfl⟩ | ⟨aa, taxid, lvl, cat, _, _, _, _, _, rfl⟩
  · exact ha
  · exact mem_dictKeys_dictInsert.mpr (Or.inl ha)

theorem processRow_sets_inv {r : Row} {gi ti ai ri : Nat}
    { keep_db_prefix : Bool} {st st2 : RefseqMetadata}
    (h : processRow keep_db_prefix gi ti ai ri st r = .ok st2)
    (hP : (∀ a ∈ st.complete_genomes, a ∈ dictKeys st.accession_to_taxid) ∧
          (∀ a ∈ st.representative_genomes, a ∈ dictKeys st.accession_to_taxid)) :
    (∀ a ∈ st2.complete_genomes, a ∈ dictKeys st2.accession_to_taxid) ∧
    (∀ a ∈ st2.representative_genomes, a ∈ dictKeys st2.accession_to_taxid) := by
  rcases processRow_ok_cases h with ⟨a2, _, _, rfl⟩ | ⟨aa, taxid, lvl, cat, _, _, _, _, _, rfl⟩
  · exact hP
  · constructor
    · intro a ha
      simp only at ha
      apply mem_dictKeys_dictInsert.mpr
      by_cases hc : pyLower lvl = "complete genome".toList
      · rw [if_pos hc] at ha
        rcases mem_setAdd.mp ha with h2 | rfl
        · exact Or.inl (hP.1 a h2)
        · exact Or.inr rfl
      · rw [if_neg hc] at ha
        exact Or.inl (hP.1 a ha)
    · intro a ha
      simp only at ha
      apply mem_dictKeys_dictInsert.mpr
      by_cases hc : (pyContains ("reference".toList) (pyLower cat) ||
          pyContains ("representative".toList) (pyLower cat)) = true
      · rw [if_pos hc] at ha
        rcases mem_setAdd.mp ha with h2 | rfl
        · exact Or.inl (hP.2 a h2)
        · exact Or.inr rfl
      · rw [if_neg hc] at ha
        exact Or.inl (hP.2 a ha)

theorem processRow_inserts {r : Row} {gi ti ai ri : Nat}
    { keep_db_prefix : Bool} {st st2 : RefseqMetadata} {a : Str}
    (h : processRow keep_db_prefix gi ti ai ri st r = .ok st2)
    (hga : r.get? gi = some a)
    (hrs : ("RS_".toList).isPrefixOf a = true) :
    (if keep_db_prefix then a else stripDbPre a) ∈ dictKeys st2.accession_to_taxid := by
  rcases processRow_ok_cases h with ⟨a2, hga2, hrs2, rfl⟩ | ⟨aa, taxid, lvl, cat, hga2, _, _, _, _, rfl⟩
  · rw [hga] at hga2
    cases hga2
    rw [hrs] at hrs2
    cases hrs2
  · rw [hga] at hga2
    cases hga2
    exact mem_dictKeys_dictInsert.mpr (Or.inr rfl)

/- Lemmas about the set-building folds of read_type_strains and
get_type_strains. -/

theorem rts_mem : ∀ (lines : List Str) (init : List PyVal) (x : PyVal),
    x ∈ lines.foldl
        (fun s l => setAdd s (PyVal.str ((pySplit '\t' l).headD []))) init ↔
      x ∈ init ∨ ∃ l ∈ lines, x = PyVal.str ((pySplit '\t' l).headD []) := by
  intro lines
  induction lines with
  | nil => intro init x; simp
  | cons a rest ih =>
    intro init x
    simp only [List.foldl_cons, ih, mem_setAdd, List.mem_cons]
    constructor
    · rintro (h | ⟨l, hl, rfl⟩)
      · rcases h with h0 | rfl
        · exact Or.inl h0
        · exact Or.inr ⟨a, Or.inl rfl, rfl⟩
      · exact Or.inr ⟨l, Or.inr hl, rfl⟩
    · rintro (h0 | ⟨l, hal, rfl⟩)
      · exact Or.inl (Or.inl h0)
      · rcases hal with rfl | hl
        · exact Or.inl (Or.inr rfl)
        · exact Or.inr ⟨l, hl, rfl⟩

theorem rts_nodup : ∀ (lines : List Str) (init : List PyVal), init.Nodup →
    (lines.foldl
      (fun s l => setAdd s (PyVal.str ((pySplit '\t' l).headD []))) init).Nodup := by
  intro lines
  induction lines with
  | nil => intro init h; exact h
  | cons a rest ih =>
    intro init h
    simp only [List.foldl_cons]
    exact ih _ (nodup_setAdd h)

theorem gts_mem (m : Dict) (tset : List PyVal) :
    ∀ (gids : List Str) (init : List Str) (g : Str),
    g ∈ gids.foldl
        (fun ts g2 =>
          if dictGetD m g2 (PyVal.int (-1)) ∈ tset then setAdd ts g2 else ts) init ↔
      g ∈ init ∨ (g ∈ gids ∧ dictGetD m g (PyVal.int (-1)) ∈ tset) := by
  intro gids
  induction gids with
  | nil => intro init g; simp
  | cons a rest ih =>
    intro init g
    simp only [List.foldl_cons, List.mem_cons]
    by_cases hP : dictGetD m a (PyVal.int (-1)) ∈ tset
    · rw [if_pos hP, ih]
      simp only [mem_setAdd]
      constructor
      · rintro (h | ⟨hg, hgp⟩)
        · rcases h with h0 | rfl
          · exact Or.inl h0
          · exact Or.inr ⟨Or.inl rfl, hP⟩
        · exact Or.inr ⟨Or.inr hg, hgp⟩
      · rintro (h0 | ⟨hga, hgp⟩)
        · exact Or.inl (Or.inl h0)
        · rcases hga with rfl | hg
          · exact Or.inl (Or.inr rfl)
          · exact Or.inr ⟨hg, hgp⟩
    · rw [if_neg hP, ih]
      constructor
      · rintro (h0 | ⟨hg, hgp⟩)
        · exact Or.inl h0
        · exact Or.inr ⟨Or.inr hg, hgp⟩
      · rintro (h0 | ⟨hga, hgp⟩)
        · exact Or.inl h0
        · rcases hga with rfl | hg
          · exact absurd hgp hP
          · exact Or.inr ⟨hg, hgp⟩

/- Claim theorems. -/

/-- Claim C1: for every input set of genome ids, every accession-to-taxid
mapping and every set of type-strain taxids, get_type_strains returns exactly
the set of genome ids whose taxonomy id, looked up with the sentinel default
-1 when absent, belongs to the type-strain set; in particular, on genome ids
A, B, C with A mapped to 1, B mapped to 2 and type-strain set containing only
1, the result is the set containing exactly A. -/
theorem get_type_strains_exact (genome_ids : List Str) (accession_to_taxid : Dict)
    (type_strain_taxids : List PyVal) (g : Str) :
    (g ∈ get_type_strains genome_ids accession_to_taxid type_strain_taxids ↔
      g ∈ genome_ids ∧
        dictGetD accession_to_taxid g (PyVal.int (-1)) ∈ type_strain_taxids) ∧
    get_type_strains ["A".toList, "B".toList, "C".toList]
        [("A".toList, "1".toList), ("B".toList, "2".toList)]
        [PyVal.str ("1".toList)] = ["A".toList] := by
  constructor
  · unfold get_type_strains
    rw [gts_mem]
    simp
  · rfl

/-- Claim C8: get_type_strains always returns a set and never raises: a genome
id absent from the mapping resolves to the sentinel -1, and when the
type-strain set consists of strings, as read_type_strains produces, the
sentinel collides with no member, so the missing id is never included. -/
theorem get_type_strains_missing_excluded (genome_ids : List Str)
    (accession_to_taxid : Dict) (type_strain_taxids : List PyVal) (g : Str)
    (hstr : allStr type_strain_taxids = true)
    (hmiss : dictGet? accession_to_taxid g = none) :
    g ∉ get_type_strains genome_ids accession_to_taxid type_strain_taxids := by
  intro hmem
  unfold get_type_strains at hmem
  rw [gts_mem] at hmem
  simp only [List.not_mem_nil, false_or] at hmem
  have hsent : dictGetD accession_to_taxid g (PyVal.int (-1)) = PyVal.int (-1) := by
    unfold dictGetD
    rw [hmiss]
  rw [hsent] at hmem
  have := (List.all_eq_true.mp hstr) _ hmem.2
  simp at this

/-- Witness for claim C8 at a concrete input: the id C is missing from the
mapping and is excluded from the result. -/
theorem get_type_strains_missing_excluded_witness :
    allStr [PyVal.str ("1".toList)] = true ∧
    dictGet? [("A".toList, "1".toList)] ("C".toList) = none ∧
    ("C".toList) ∉ get_type_strains ["A".toList, "C".toList]
        [("A".toList, "1".toList)] [PyVal.str ("1".toList)] :=
  ⟨rfl, rfl,
    get_type_strains_missing_excluded ["A".toList, "C".toList]
      [("A".toList, "1".toList)] [PyVal.str ("1".toList)] ("C".toList) rfl rfl⟩

/-- Claim C9: read_type_strains returns exactly the set of first tab-delimited
fields of the lines of the file, as a duplicate-free set, and since no
trailing-whitespace trimming happens before splitting, a line with no tab
contributes the whole line, terminator included. -/
theorem read_type_strains_exact (lines : List Str) (x : PyVal) :
    (x ∈ read_type_strains lines ↔
      ∃ l ∈ lines, x = PyVal.str ((pySplit '\t' l).headD [])) ∧
    (read_type_strains lines).Nodup ∧
    (∀ l ∈ lines, '\t' ∉ l → PyVal.str l ∈ read_type_strains lines) := by
  refine ⟨?_, ?_, ?_⟩
  · unfold read_type_strains
    rw [rts_mem]
    simp
  · exact rts_nodup lines [] List.nodup_nil
  · intro l hl hnt
    unfold read_type_strains
    rw [rts_mem]
    refine Or.inr ⟨l, hl, ?_⟩
    rw [pySplit_no_sep hnt]
    rfl

/-- Claim C5: a genome-dir file containing a line that, after stripping
trailing whitespace, has fewer than two tab-separated fields makes
read_genome_dir fail with an IndexError instead of skipping the line. -/
theorem read_genome_dir_short_line_error (lines : List Str) (l : Str)
    (hl : l ∈ lines) (hshort : (fields l).length < 2) :
    read_genome_dir lines = .error .indexError :=
  foldE_rgd_short lines [] ⟨l, hl, hshort⟩

/-- Witness for claim C5 at a concrete input: a file whose second line has a
single field aborts with an IndexError. -/
theorem read_genome_dir_short_line_error_witness :
    ("x\n".toList) ∈ ["a\tb\n".toList, "x\n".toList] ∧
    (fields ("x\n".toList)).length < 2 ∧
    read_genome_dir ["a\tb\n".toList, "x\n".toList] = .error .indexError :=
  ⟨by simp, by decide,
    read_genome_dir_short_line_error ["a\tb\n".toList, "x\n".toList] ("x\n".toList)
      (by simp) (by decide)⟩

/-- Claim C7: when the same genome id heads several lines, the mapping
returned by read_genome_dir binds that id to the directory path of the last
such line in file order. -/
theorem read_genome_dir_last_wins (lines : List Str) (d : Dict) (k : Str)
    (hok : read_genome_dir lines = .ok d) :
    dictGet? d k = lastDir lines k := by
  have h := foldE_rgd_get lines [] d hok k
  rw [h]
  cases lastDir lines k with
  | none => rfl
  | some v => rfl

/-- Witness for claim C7 at a concrete input: the id G appears on two lines
and is mapped to the path of the second. -/
theorem read_genome_dir_last_wins_witness :
    read_genome_dir ["G\tp1\n".toList, "G\tp2\n".toList] =
      .ok [("G".toList, "p2".toList)] ∧
    dictGet? [("G".toList, "p2".toList)] ("G".toList) =
      lastDir ["G\tp1\n".toList, "G\tp2\n".toList] ("G".toList) :=
  ⟨rfl,
    read_genome_dir_last_wins ["G\tp1\n".toList, "G\tp2\n".toList]
      [("G".toList, "p2".toList)] ("G".toList) rfl⟩

/-- Counterexample to claim C4 as stated: in the two-line file whose lines are
a tab-separated pair followed by an empty line (reading a non-empty line as
one whose content is non-empty after stripping trailing whitespace), every
non-empty line has two fields, the genome ids of the non-empty lines are
unique, and there is exactly one non-empty line, yet read_genome_dir raises
an IndexError on the empty line instead of returning a one-entry mapping. -/
theorem read_genome_dir_nonempty_claim_cex :
    (["a\tb\n".toList, "\n".toList].all
      (fun l => !(nonEmptyLine l) || decide (2 ≤ (fields l).length)) = true) ∧
    ((["a\tb\n".toList, "\n".toList].filter nonEmptyLine).map f0).Nodup ∧
    (["a\tb\n".toList, "\n".toList].filter nonEmptyLine).length = 1 ∧
    read_genome_dir ["a\tb\n".toList, "\n".toList] = .error .indexError :=
  ⟨rfl, by decide, rfl, rfl⟩

/-- Claim C4 as amended: for a genome-dir file in which every line has at
least two tab-separated fields after stripping trailing whitespace and the
genome ids are unique, read_genome_dir returns the mapping built by inserting
every line in order; it has exactly one entry per line, and looking up the
genome id of any line yields that line's second field. -/
theorem read_genome_dir_wellformed (lines : List Str)
    (hwf : lines.all (fun l => decide (2 ≤ (fields l).length)) = true)
    (hnd : (lines.map f0).Nodup) :
    read_genome_dir lines = .ok (insFold lines) ∧
    (insFold lines).length = lines.length ∧
    lines.all (fun l => dictGet? (insFold lines) (f0 l) == some (f1 l)) = true := by
  have hwf2 : ∀ l ∈ lines, 2 ≤ (fields l).length := by
    intro l hl
    exact of_decide_eq_true (List.all_eq_true.mp hwf l hl)
  have hok : read_genome_dir lines = .ok (insFold lines) :=
    foldE_rgd_ok lines [] hwf2
  refine ⟨hok, ?_, ?_⟩
  · have h := foldl_dictInsert_length lines [] (by simpa [dictKeys] using hnd)
    simpa [insFold] using h
  · rw [List.all_eq_true]
    intro l hl
    have hget := foldE_rgd_get lines [] (insFold lines) hok (f0 l)
    have hval : dictGet? (insFold lines) (f0 l) = some (f1 l) := by
      rw [hget, lastDir_self hnd hl]
    simp [hval]

/-- Witness for the amended claim C4 at a concrete two-line file. -/
theorem read_genome_dir_wellformed_witness :
    (["G1\tp1\n".toList, "G2\tp2".toList].all
      (fun l => decide (2 ≤ (fields l).length)) = true) ∧
    ((["G1\tp1\n".toList, "G2\tp2".toList].map f0).Nodup) ∧
    (read_genome_dir ["G1\tp1\n".toList, "G2\tp2".toList] =
        .ok (insFold ["G1\tp1\n".toList, "G2\tp2".toList]) ∧
      (insFold ["G1\tp1\n".toList, "G2\tp2".toList]).length =
        (["G1\tp1\n".toList, "G2\tp2".toList] : List Str).length ∧
      (["G1\tp1\n".toList, "G2\tp2".toList].all
        (fun l => dictGet? (insFold ["G1\tp1\n".toList, "G2\tp2".toList]) (f0 l) ==
          some (f1 l)) = true)) :=
  ⟨rfl, by decide,
    read_genome_dir_wellformed ["G1\tp1\n".toList, "G2\tp2".toList] rfl (by decide)⟩

/-- Claim C3: when the header record lacks any of the four required column
names, read_refseq_metadata fails with the missing-column error (ValueError)
raised while resolving the header, whatever the data rows are, so no
structure derived from data rows is produced. -/
theorem read_refseq_metadata_missing_column (header : Row) (dataRows : List Row)
    (keep : Bool)
    (hmiss : ("genome".toList) ∉ header ∨ ("ncbi_taxid".toList) ∉ header ∨
      ("ncbi_assembly_level".toList) ∉ header ∨
      ("ncbi_refseq_category".toList) ∉ header) :
    read_refseq_metadata (header :: dataRows) keep = .error .valueError := by
  rcases hmiss with h | h | h | h
  · simp only [read_refseq_metadata, pyIndex?_eq_none h]
  · cases h1 : pyIndex? ("genome".toList) header with
    | none => simp only [read_refseq_metadata, h1]
    | some gi => simp only [read_refseq_metadata, h1, pyIndex?_eq_none h]
  · cases h1 : pyIndex? ("genome".toList) header with
    | none => simp only [read_refseq_metadata, h1]
    | some gi =>
      cases h2 : pyIndex? ("ncbi_taxid".toList) header with
      | none => simp only [read_refseq_metadata, h1, h2]
      | some ti => simp only [read_refseq_metadata, h1, h2, pyIndex?_eq_none h]
  · cases h1 : pyIndex? ("genome".toList) header with
    | none => simp only [read_refseq_metadata, h1]
    | some gi =>
      cases h2 : pyIndex? ("ncbi_taxid".toList) header with
      | none => simp only [read_refseq_metadata, h1, h2]
      | some ti =>
        cases h3 : pyIndex? ("ncbi_assembly_level".toList) header with
        | none => simp only [read_refseq_metadata, h1, h2, h3]
        | some ai => simp only [read_refseq_metadata, h1, h2, h3, pyIndex?_eq_none h]

/-- Witness for claim C3 at a concrete input: a header without the ncbi_taxid
column makes the call fail with ValueError despite a well-formed data row. -/
theorem read_refseq_metadata_missing_column_witness :
    (("genome".toList) ∉ [("genome".toList), ("ncbi_assembly_level".toList),
        ("ncbi_refseq_category".toList)] ∨
      ("ncbi_taxid".toList) ∉ [("genome".toList), ("ncbi_assembly_level".toList),
        ("ncbi_refseq_category".toList)] ∨
      ("ncbi_assembly_level".toList) ∉ [("genome".toList), ("ncbi_assembly_level".toList),
        ("ncbi_refseq_category".toList)] ∨
      ("ncbi_refseq_category".toList) ∉ [("genome".toList), ("ncbi_assembly_level".toList),
        ("ncbi_refseq_category".toList)]) ∧
    read_refseq_metadata
        [[("genome".toList), ("ncbi_assembly_level".toList), ("ncbi_refseq_category".toList)],
         [("RS_X".toList), ("Complete Genome".toList), ("reference".toList)]] false =
      .error .valueError :=
  ⟨by decide,
    read_refseq_metadata_missing_column
      [("genome".toList), ("ncbi_assembly_level".toList), ("ncbi_refseq_category".toList)]
      [[("RS_X".toList), ("Complete Genome".toList), ("reference".toList)]] false
      (by decide)⟩

/-- Claim C2: a data row whose genome value does not start with RS_ (for
example a GB_-prefixed row) contributes nothing to any of the three returned
structures, for either value of keep_db_prefix: deleting the row from the
file leaves the result of read_refseq_metadata unchanged. -/
theorem read_refseq_metadata_ignores_non_rs (header : Row) (pre post : List Row)
    (r : Row) (keep : Bool) (gi : Nat) (a : Str)
    (hgi : pyIndex? ("genome".toList) header = some gi)
    (hga : r.get? gi = some a)
    (hrs : ("RS_".toList).isPrefixOf a = false) :
    read_refseq_metadata (header :: (pre ++ r :: post)) keep =
      read_refseq_metadata (header :: (pre ++ post)) keep := by
  cases h2 : pyIndex? ("ncbi_taxid".toList) header with
  | none => simp only [read_refseq_metadata, hgi, h2]
  | some ti =>
    cases h3 : pyIndex? ("ncbi_assembly_level".toList) header with
    | none => simp only [read_refseq_metadata, hgi, h2, h3]
    | some ai =>
      cases h4 : pyIndex? ("ncbi_refseq_category".toList) header with
      | none => simp only [read_refseq_metadata, hgi, h2, h3, h4]
      | some ri =>
        rw [rrm_header_resolved (pre ++ r :: post) keep hgi h2 h3 h4,
            rrm_header_resolved (pre ++ post) keep hgi h2 h3 h4,
            foldE_append, foldE_append]
        cases hpre : foldE (processRow keep gi ti ai ri) emptyMeta pre with
        | error e => rfl
        | ok st0 =>
          simp only [foldE, processRow_nonRS keep ti ai ri st0 hga hrs]

/-- Witness for claim C2 at a concrete input: removing a GB_-prefixed data row
does not change the result. -/
theorem read_refseq_metadata_ignores_non_rs_witness :
    pyIndex? ("genome".toList)
        [("genome".toList), ("ncbi_taxid".toList), ("ncbi_assembly_level".toList),
         ("ncbi_refseq_category".toList)] = some 0 ∧
    ([("GB_Y".toList), ("9".toList), ("Complete Genome".toList),
        ("reference".toList)] : Row).get? 0 = some ("GB_Y".toList) ∧
    ("RS_".toList).isPrefixOf ("GB_Y".toList) = false ∧
    read_refseq_metadata
        [[("genome".toList), ("ncbi_taxid".toList), ("ncbi_assembly_level".toList),
          ("ncbi_refseq_category".toList)],
         [("GB_Y".toList), ("9".toList), ("Complete Genome".toList), ("reference".toList)]]
        false =
      read_refseq_metadata
        [[("genome".toList), ("ncbi_taxid".toList), ("ncbi_assembly_level".toList),
          ("ncbi_refseq_category".toList)]] false :=
  ⟨rfl, rfl, rfl,
    read_refseq_metadata_ignores_non_rs
      [("genome".toList), ("ncbi_taxid".toList), ("ncbi_assembly_level".toList),
       ("ncbi_refseq_category".toList)]
      [] []
      [("GB_Y".toList), ("9".toList), ("Complete Genome".toList), ("reference".toList)]
      false 0 ("GB_Y".toList) rfl rfl rfl⟩

/-- Claim C10: for every accepted metadata file, each accession classified as
complete or representative also has a taxonomy-id entry: both sets are
subsets of the key set of the returned accession-to-taxid mapping. -/
theorem read_refseq_metadata_sets_subset_keys (rows : List Row) (keep : Bool)
    (st : RefseqMetadata) (a : Str)
    (hok : read_refseq_metadata rows keep = .ok st)
    (ha : a ∈ st.complete_genomes ∨ a ∈ st.representative_genomes) :
    a ∈ dictKeys st.accession_to_taxid := by
  cases rows with
  | nil =>
    unfold read_refseq_metadata at hok
    cases hok
    rcases ha with h | h <;> simp [emptyMeta] at h
  | cons header dataRows =>
    cases h1 : pyIndex? ("genome".toList) header with
    | none =>
      simp only [read_refseq_metadata, h1] at hok
      exact Except.noConfusion hok
    | some gi =>
      cases h2 : pyIndex? ("ncbi_taxid".toList) header with
      | none =>
        simp only [read_refseq_metadata, h1, h2] at hok
        exact Except.noConfusion hok
      | some ti =>
        cases h3 : pyIndex? ("ncbi_assembly_level".toList) header with
        | none =>
          simp only [read_refseq_metadata, h1, h2, h3] at hok
          exact Except.noConfusion hok
        | some ai =>
          cases h4 : pyIndex? ("ncbi_refseq_category".toList) header with
          | none =>
            simp only [read_refseq_metadata, h1, h2, h3, h4] at hok
            exact Except.noConfusion hok
          | some ri =>
            rw [rrm_header_resolved dataRows keep h1 h2 h3 h4] at hok
            have hinv := foldE_inv
              (P := fun s => (∀ b ∈ s.complete_genomes, b ∈ dictKeys s.accession_to_taxid) ∧
                (∀ b ∈ s.representative_genomes, b ∈ dictKeys s.accession_to_taxid))
              (fun _ _ _ hP hstep => processRow_sets_inv hstep hP)
              dataRows emptyMeta st
              ⟨by simp [emptyMeta], by simp [emptyMeta]⟩ hok
            rcases ha with h | h
            · exact hinv.1 a h
            · exact hinv.2 a h

/-- Witness for claim C10 at a concrete input: the accession X is in both
derived sets and also among the mapping keys. -/
theorem read_refseq_metadata_sets_subset_keys_witness :
    read_refseq_metadata
        [[("genome".toList), ("ncbi_taxid".toList), ("ncbi_assembly_level".toList),
          ("ncbi_refseq_category".toList)],
         [("RS_X".toList), ("5".toList), ("Complete Genome".toList), ("reference".toList)]]
        false =
      .ok ⟨[(("X".toList), ("5".toList))], [("X".toList)], [("X".toList)]⟩ ∧
    (("X".toList) ∈ [("X".toList)] ∨ ("X".toList) ∈ [("X".toList)]) ∧
    ("X".toList) ∈ dictKeys [(("X".toList), ("5".toList))] :=
  ⟨rfl, Or.inl (by simp),
    read_refseq_metadata_sets_subset_keys
      [[("genome".toList), ("ncbi_taxid".toList), ("ncbi_assembly_level".toList),
        ("ncbi_refseq_category".toList)],
       [("RS_X".toList), ("5".toList), ("Complete Genome".toList), ("reference".toList)]]
      false ⟨[(("X".toList), ("5".toList))], [("X".toList)], [("X".toList)]⟩ ("X".toList)
      rfl (Or.inl (by simp))⟩

/-- Counterexample to claim C6 as stated: the genome value RS_RRS_S_ starts
with RS_, so the row is retained; removing RS_ occurrences left to right
concatenates the remaining fragments into the key RS_, which still contains
the substring RS_ even though keep_db_prefix is false, and not all RS_
substrings have been removed from it. -/
theorem read_refseq_metadata_norm_claim_cex :
    read_refseq_metadata
        [[("genome".toList), ("ncbi_taxid".toList), ("ncbi_assembly_level".toList),
          ("ncbi_refseq_category".toList)],
         [("RS_RRS_S_".toList), ("5".toList), ("x".toList), ("".toList)]] false =
      .ok ⟨[(("RS_".toList), ("5".toList))], [], []⟩ ∧
    pyContains ("RS_".toList) ("RS_".toList) = true :=
  ⟨rfl, rfl⟩

/-- Claim C6 as amended: the key recorded for a retained row is its genome
value transformed by removing RS_ and then GB_ occurrences through
left-to-right non-overlapping replacement when keep_db_prefix is false, and
the raw genome value when keep_db_prefix is set; this key is a key of the
returned accession-to-taxid mapping. -/
theorem read_refseq_metadata_key_norm (header : Row) (pre post : List Row)
    (r : Row) (keep : Bool) (gi : Nat) (a : Str) (st : RefseqMetadata)
    (hgi : pyIndex? ("genome".toList) header = some gi)
    (hga : r.get? gi = some a)
    (hrs : ("RS_".toList).isPrefixOf a = true)
    (hok : read_refseq_metadata (header :: (pre ++ r :: post)) keep = .ok st) :
    (if keep then a else stripDbPre a) ∈ dictKeys st.accession_to_taxid := by
  cases h2 : pyIndex? ("ncbi_taxid".toList) header with
  | none =>
    simp only [read_refseq_metadata, hgi, h2] at hok
    exact Except.noConfusion hok
  | some ti =>
    cases h3 : pyIndex? ("ncbi_assembly_level".toList) header with
    | none =>
      simp only [read_refseq_metadata, hgi, h2, h3] at hok
      exact Except.noConfusion hok
    | some ai =>
      cases h4 : pyIndex? ("ncbi_refseq_category".toList) header with
      | none =>
        simp only [read_refseq_metadata, hgi, h2, h3, h4] at hok
        exact Except.noConfusion hok
      | some ri =>
        rw [rrm_header_resolved (pre ++ r :: post) keep hgi h2 h3 h4,
            foldE_append] at hok
        cases hpre : foldE (processRow keep gi ti ai ri) emptyMeta pre with
        | error e =>
          simp only [hpre] at hok
          exact Except.noConfusion hok
        | ok st0 =>
          simp only [hpre] at hok
          cases hr : processRow keep gi ti ai ri st0 r with
          | error e =>
            simp only [foldE, hr] at hok
            exact Except.noConfusion hok
          | ok st1 =>
            simp only [foldE, hr] at hok
            exact foldE_inv
              (P := fun s =>
                (if keep then a else stripDbPre a) ∈ dictKeys s.accession_to_taxid)
              (fun _ _ _ hP hstep => processRow_keys_mono hstep hP)
              post st1 st (processRow_inserts hr hga hrs) hok

/-- Witness for the amended claim C6 at a concrete input: the retained row
with genome value RS_ABC is recorded, with keep_db_prefix unset, under the
normalized key ABC. -/
theorem read_refseq_metadata_key_norm_witness :
    pyIndex? ("genome".toList)
        [("genome".toList), ("ncbi_taxid".toList), ("ncbi_assembly_level".toList),
         ("ncbi_refseq_category".toList)] = some 0 ∧
    ([("RS_ABC".toList), ("7".toList), ("x".toList), ("".toList)] : Row).get? 0 =
      some ("RS_ABC".toList) ∧
    ("RS_".toList).isPrefixOf ("RS_ABC".toList) = true ∧
    read_refseq_metadata
        [[("genome".toList), ("ncbi_taxid".toList), ("ncbi_assembly_level".toList),
          ("ncbi_refseq_category".toList)],
         [("RS_ABC".toList), ("7".toList), ("x".toList), ("".toList)]] false =
      .ok ⟨[(("ABC".toList), ("7".toList))], [], []⟩ ∧
    stripDbPre ("RS_ABC".toList) ∈ dictKeys [(("ABC".toList), ("7".toList))] :=
  ⟨rfl, rfl, rfl, rfl,
    read_refseq_metadata_key_norm
      [("genome".toList), ("ncbi_taxid".toList), ("ncbi_assembly_level".toList),
       ("ncbi_refseq_category".toList)]
      [] []
      [("RS_ABC".toList), ("7".toList), ("x".toList), ("".toList)]
      false 0 ("RS_ABC".toList)
      ⟨[(("ABC".toList), ("7".toList))], [], []⟩
      rfl rfl rfl rfl⟩
